import Mathlib

/-!
Shallow embedding of the GCRA rate limiter in `src/ratelimit.c` of
onsigntv/redis-rate-limiter, together with theorems checking the
natural-language specification against it.

The C code works on `long long` (signed 64-bit) nanosecond values; signed
overflow is undefined behaviour in C, so the defined behaviour of the
program is captured by modelling `long long` as `Int`.  The single
floating-point step — `(long long)((double)(period_in_sec * NSEC_PER_SEC)
/ count_per_period)` at line 84-85 — truncates the quotient toward zero;
it is modelled as exact truncated integer division (`Int.tdiv`, the
semantics of C integer `/`), which agrees with the double computation
whenever the operands are exactly representable.  All concrete inputs used
below stay well inside that range.
-/

namespace RedisRateLimiter

/-- `NSEC_PER_SEC` from src/ratelimit.c line 42: nanoseconds per second. -/
def NSEC_PER_SEC : Int := 1000000000

/-- `USEC_PER_SEC` from src/ratelimit.c line 45: microseconds per second. -/
def USEC_PER_SEC : Int := 1000000

/-- `MSEC_PER_SEC` from src/ratelimit.c line 48: milliseconds per second. -/
def MSEC_PER_SEC : Int := 1000

/-- The five out-parameters of `rater_limit` (src/ratelimit.c lines 70-131)
together with its return value `new_tat`. -/
structure RaterResult where
  limited : Int
  limit : Int
  remaining : Int
  retry_after : Int
  ttl : Int
  new_tat : Int
  deriving Repr, DecidableEq

/-- `emission_interval` (src/ratelimit.c lines 84-85): the time between
events in the nominal equally spaced schedule,
`period_in_sec * NSEC_PER_SEC / count_per_period` truncated toward zero. -/
def emission_interval (period_in_sec count_per_period : Int) : Int :=
  Int.tdiv (period_in_sec * NSEC_PER_SEC) count_per_period

/-- `delay_variation_tolerance` (src/ratelimit.c line 90):
`emission_interval * (burst + 1)`, the size of the bucket. -/
def delay_variation_tolerance (burst period_in_sec count_per_period : Int) : Int :=
  emission_interval period_in_sec count_per_period * (burst + 1)

/-- The effective theoretical arrival time (src/ratelimit.c lines 97-99):
a stored value of `0` means a fresh bucket and is replaced by `now`. -/
def effective_tat (tat now : Int) : Int :=
  if tat = 0 then now else tat

/-- The value held in `*ttl` just before the final unit division at
src/ratelimit.c line 128: nanoseconds until the bucket is fully idle
(`tat - now` on a denied request, `new_tat - now` on an admitted one,
lines 112-121). -/
def ttl_nanos (tat burst count_per_period period_in_sec quantity now : Int) : Int :=
  let e := emission_interval period_in_sec count_per_period
  let dvt := delay_variation_tolerance burst period_in_sec count_per_period
  let t := effective_tat tat now
  let increment := e * quantity
  let new_tat := if now > t then now + increment else t + increment
  let diff := now - (new_tat - dvt)
  if diff < 0 then t - now else new_tat - now

/-- `rater_limit` (src/ratelimit.c lines 70-131), with the clock value
`now` passed in explicitly instead of read from `get_nanos()`.  The final
`*ttl = *ttl / USEC_PER_SEC` (line 128) leaves `ttl` in the store's
expiry unit (milliseconds, since the pre-division value is nanoseconds). -/
def rater_limit (tat burst count_per_period period_in_sec quantity now : Int) :
    RaterResult :=
  let e := emission_interval period_in_sec count_per_period
  let dvt := delay_variation_tolerance burst period_in_sec count_per_period
  let t := effective_tat tat now
  let increment := e * quantity
  let new_tat0 := if now > t then now + increment else t + increment
  let allow_at := new_tat0 - dvt
  let diff := now - allow_at
  let ttl0 := ttl_nanos tat burst count_per_period period_in_sec quantity now
  let next := dvt - ttl0
  { limited := if diff < 0 then 1 else 0
    limit := burst + 1
    remaining := if next > -e then Int.tdiv next e else 0
    retry_after :=
      if diff < 0 ∧ increment ≤ dvt then Int.tdiv (-diff) NSEC_PER_SEC else -1
    ttl := Int.tdiv ttl0 USEC_PER_SEC
    new_tat := if diff < 0 then 0 else new_tat0 }

/-- The state the Redis store holds for one key: the stored theoretical
arrival time string (`0` encodes an absent key, which the command reads as
`tat = 0`, src/ratelimit.c line 139) and the expiry last set for it. -/
structure StoredState where
  tat : Int
  expiry_ms : Int
  deriving Repr, DecidableEq

/-- A key that has never been written (or whose expiry elapsed). -/
def fresh : StoredState := { tat := 0, expiry_ms := 0 }

/-- One execution of `RaterLimit_RedisCommand` on a key holding `st`
(src/ratelimit.c lines 196-208): run `rater_limit`, then persist
`new_tat` with expiry `ttl` only when `new_tat > 0` (lines 202-208). -/
def command_step (st : StoredState)
    (burst count_per_period period_in_sec quantity now : Int) :
    StoredState × RaterResult :=
  let r := rater_limit st.tat burst count_per_period period_in_sec quantity now
  (if r.new_tat > 0 then { tat := r.new_tat, expiry_ms := r.ttl } else st, r)

/-- The ttl value the command replies with (src/ratelimit.c line 222):
`ttl / MSEC_PER_SEC`, i.e. whole seconds. -/
def reply_ttl_seconds (r : RaterResult) : Int :=
  Int.tdiv r.ttl MSEC_PER_SEC

/-- Repeated calls with `quantity = 1` at a frozen clock value `now`,
starting from a fresh key, each call persisting through `command_step`. -/
def iter_calls (burst count_per_period period_in_sec now : Int) : Nat → StoredState
  | 0 => fresh
  | n + 1 =>
      (command_step (iter_calls burst count_per_period period_in_sec now n)
        burst count_per_period period_in_sec 1 now).1

/- Sanity checks against the concrete scenario of the spec (§8):
`burst=2, countPerPeriod=10, periodSeconds=1` gives
`emission_interval = 100ms`, `tolerance = 300ms`, `limit = 3`. -/
example : emission_interval 1 10 = 100000000 := by decide
example : delay_variation_tolerance 2 1 10 = 300000000 := by decide
example : (rater_limit 0 2 10 1 1 0).limited = 0 := by decide
example : (rater_limit 0 2 10 1 1 0).remaining = 2 := by decide

/-- The `diff` of src/ratelimit.c line 111, with `new_tat` (line 103-107)
written as `max now tat + increment`. -/
def gcra_diff (tat burst count_per_period period_in_sec quantity now : Int) : Int :=
  now - (max now (effective_tat tat now)
    + emission_interval period_in_sec count_per_period * quantity
    - delay_variation_tolerance burst period_in_sec count_per_period)

lemma ite_add_eq_max_add (t now inc : Int) :
    (if now > t then now + inc else t + inc) = max now t + inc := by
  rcases le_or_lt now t with h | h
  · rw [if_neg (not_lt.mpr h), max_eq_right h]
  · rw [if_pos h, max_eq_left h.le]

lemma emission_interval_nonneg {cpp pis : Int} (hc : 0 < cpp) (hp : 0 < pis) :
    0 ≤ emission_interval pis cpp :=
  Int.tdiv_nonneg (mul_nonneg hp.le (by decide)) hc.le

lemma delay_variation_tolerance_nonneg {burst cpp pis : Int}
    (hc : 0 < cpp) (hp : 0 < pis) (hb : 0 ≤ burst) :
    0 ≤ delay_variation_tolerance burst pis cpp :=
  mul_nonneg (emission_interval_nonneg hc hp) (by omega)

lemma ttl_nanos_eq (tat burst cpp pis q now : Int) :
    ttl_nanos tat burst cpp pis q now =
      if gcra_diff tat burst cpp pis q now < 0 then effective_tat tat now - now
      else max now (effective_tat tat now) + emission_interval pis cpp * q - now := by
  simp only [ttl_nanos, gcra_diff]
  rw [ite_add_eq_max_add]

lemma rater_limit_limited_eq (tat burst cpp pis q now : Int) :
    (rater_limit tat burst cpp pis q now).limited =
      if gcra_diff tat burst cpp pis q now < 0 then 1 else 0 := by
  simp only [rater_limit, gcra_diff]
  rw [ite_add_eq_max_add]

lemma rater_limit_new_tat_eq (tat burst cpp pis q now : Int) :
    (rater_limit tat burst cpp pis q now).new_tat =
      if gcra_diff tat burst cpp pis q now < 0 then 0
      else max now (effective_tat tat now) + emission_interval pis cpp * q := by
  simp only [rater_limit, gcra_diff]
  rw [ite_add_eq_max_add]

lemma rater_limit_retry_after_eq (tat burst cpp pis q now : Int) :
    (rater_limit tat burst cpp pis q now).retry_after =
      if gcra_diff tat burst cpp pis q now < 0 ∧
          emission_interval pis cpp * q ≤ delay_variation_tolerance burst pis cpp then
        Int.tdiv (-gcra_diff tat burst cpp pis q now) NSEC_PER_SEC
      else -1 := by
  simp only [rater_limit, gcra_diff]
  rw [ite_add_eq_max_add]

lemma rater_limit_ttl_eq (tat burst cpp pis q now : Int) :
    (rater_limit tat burst cpp pis q now).ttl =
      Int.tdiv (ttl_nanos tat burst cpp pis q now) USEC_PER_SEC := rfl

lemma rater_limit_limit_eq (tat burst cpp pis q now : Int) :
    (rater_limit tat burst cpp pis q now).limit = burst + 1 := rfl

lemma rater_limit_remaining_eq (tat burst cpp pis q now : Int) :
    (rater_limit tat burst cpp pis q now).remaining =
      if delay_variation_tolerance burst pis cpp - ttl_nanos tat burst cpp pis q now >
          -emission_interval pis cpp then
        Int.tdiv
          (delay_variation_tolerance burst pis cpp - ttl_nanos tat burst cpp pis q now)
          (emission_interval pis cpp)
      else 0 := rfl

lemma limited_eq_one_iff (tat burst cpp pis q now : Int) :
    (rater_limit tat burst cpp pis q now).limited = 1 ↔
      gcra_diff tat burst cpp pis q now < 0 := by
  rw [rater_limit_limited_eq]
  split_ifs with h
  · exact iff_of_true rfl h
  · exact iff_of_false (by decide) h

lemma limited_eq_zero_iff (tat burst cpp pis q now : Int) :
    (rater_limit tat burst cpp pis q now).limited = 0 ↔
      0 ≤ gcra_diff tat burst cpp pis q now := by
  rw [rater_limit_limited_eq]
  split_ifs with h
  · exact iff_of_false (by decide) (not_le.mpr h)
  · exact iff_of_true rfl (not_lt.mp h)

lemma now_lt_effective_of_diff_neg {tat burst cpp pis q now : Int}
    (hinc : emission_interval pis cpp * q ≤ delay_variation_tolerance burst pis cpp)
    (hd : gcra_diff tat burst cpp pis q now < 0) :
    now < effective_tat tat now := by
  unfold gcra_diff at hd
  have hmax : now < max now (effective_tat tat now) := by omega
  rcases lt_max_iff.mp hmax with h | h
  · exact absurd h (lt_irrefl now)
  · exact h

lemma command_step_snd (st : StoredState) (burst cpp pis q now : Int) :
    (command_step st burst cpp pis q now).2 =
      rater_limit st.tat burst cpp pis q now := rfl

lemma command_step_tat (st : StoredState) (burst cpp pis q now : Int) :
    (command_step st burst cpp pis q now).1.tat =
      if (rater_limit st.tat burst cpp pis q now).new_tat > 0
      then (rater_limit st.tat burst cpp pis q now).new_tat else st.tat := by
  by_cases h : (rater_limit st.tat burst cpp pis q now).new_tat > 0
  · simp [command_step, h]
  · simp [command_step, h]

/-- C1: for every call with validated inputs, the verdict follows the GCRA
rule: with `effectiveArrival` the stored timestamp if nonzero else `now`,
and `candidateArrival = max(now, effectiveArrival) + emissionInterval * cost`,
the request is reported limited exactly when
`now - (candidateArrival - tolerance) < 0`, with
`tolerance = emissionInterval * (burst + 1)`. -/
theorem claim_C1_limited_iff_gcra (tat burst cpp pis q now : Int)
    (hc : 0 < cpp) (hp : 0 < pis) (hb : 0 ≤ burst) (hq : 0 ≤ q) :
    (rater_limit tat burst cpp pis q now).limited = 1 ↔
      now - (max now (effective_tat tat now) + emission_interval pis cpp * q
        - emission_interval pis cpp * (burst + 1)) < 0 := by
  rw [limited_eq_one_iff]
  unfold gcra_diff delay_variation_tolerance
  exact Iff.rfl

theorem claim_C1_witness :
    (rater_limit 0 2 10 1 1 0).limited = 1 ↔
      0 - (max 0 (effective_tat 0 0) + emission_interval 1 10 * 1
        - emission_interval 1 10 * (2 + 1)) < 0 :=
  claim_C1_limited_iff_gcra 0 2 10 1 1 0 (by decide) (by decide) (by decide) (by decide)

/-- C5: a denied request never mutates the persisted bucket state: when the
verdict is limited, `new_tat` is `0`, so the command writes neither a new
timestamp nor a new expiry and the stored state is exactly as before. -/
theorem claim_C5_denied_preserves_state (st : StoredState)
    (burst cpp pis q now : Int)
    (hlim : (command_step st burst cpp pis q now).2.limited = 1) :
    (command_step st burst cpp pis q now).1 = st := by
  rw [command_step_snd] at hlim
  have hd := (limited_eq_one_iff st.tat burst cpp pis q now).mp hlim
  have h0 : (rater_limit st.tat burst cpp pis q now).new_tat = 0 := by
    rw [rater_limit_new_tat_eq, if_pos hd]
  simp [command_step, h0]

theorem claim_C5_witness : (command_step fresh 0 1 1 2 5).1 = fresh :=
  claim_C5_denied_preserves_state fresh 0 1 1 2 5 (by decide)

/-- C6 counterexample: `countPerPeriod = 2 * 10^9 > periodSeconds * 10^9`
is a validated configuration (positive count, positive period) whose
derived emission interval truncates to zero, refuting "always > 0". -/
theorem claim_C6_counterexample :
    0 < (2000000000 : Int) ∧ 0 < (1 : Int) ∧
      emission_interval 1 2000000000 = 0 := by decide

/-- C6 (amended): for every configuration with `countPerPeriod > 0`,
`periodSeconds > 0` and `countPerPeriod ≤ periodSeconds * 10^9`, the
derived truncated emission interval is strictly positive. -/
theorem claim_C6_emission_interval_pos (cpp pis : Int)
    (hc : 0 < cpp) (hp : 0 < pis) (hle : cpp ≤ pis * NSEC_PER_SEC) :
    0 < emission_interval pis cpp := by
  unfold emission_interval
  rw [Int.tdiv_eq_ediv (mul_nonneg hp.le (by decide)) hc.le]
  have h1 : 1 ≤ pis * NSEC_PER_SEC / cpp :=
    (Int.le_ediv_iff_mul_le hc).mpr (by omega)
  omega

theorem claim_C6_witness : 0 < emission_interval 1 10 :=
  claim_C6_emission_interval_pos 10 1 (by decide) (by decide) (by decide)

/-- C7: on every denied request, `retry_after` is `(-diff) / 10^9`
truncated to whole seconds when `increment ≤ tolerance`, and the sentinel
`-1` when `increment > tolerance`. -/
theorem claim_C7_retry_after (tat burst cpp pis q now : Int)
    (hc : 0 < cpp) (hp : 0 < pis) (hb : 0 ≤ burst) (hq : 0 ≤ q)
    (hlim : (rater_limit tat burst cpp pis q now).limited = 1) :
    (emission_interval pis cpp * q ≤ delay_variation_tolerance burst pis cpp →
      (rater_limit tat burst cpp pis q now).retry_after =
        Int.tdiv (-gcra_diff tat burst cpp pis q now) NSEC_PER_SEC) ∧
    (delay_variation_tolerance burst pis cpp < emission_interval pis cpp * q →
      (rater_limit tat burst cpp pis q now).retry_after = -1) := by
  have hd := (limited_eq_one_iff tat burst cpp pis q now).mp hlim
  constructor
  · intro hle
    rw [rater_limit_retry_after_eq, if_pos ⟨hd, hle⟩]
  · intro hgt
    rw [rater_limit_retry_after_eq, if_neg (fun h => absurd h.2 (not_le.mpr hgt))]

theorem claim_C7_witness :
    (emission_interval 1 1 * 1 ≤ delay_variation_tolerance 0 1 1 →
      (rater_limit 3000000000 0 1 1 1 10).retry_after =
        Int.tdiv (-gcra_diff 3000000000 0 1 1 1 10) NSEC_PER_SEC) ∧
    (delay_variation_tolerance 0 1 1 < emission_interval 1 1 * 1 →
      (rater_limit 3000000000 0 1 1 1 10).retry_after = -1) :=
  claim_C7_retry_after 3000000000 0 1 1 1 10 (by decide) (by decide) (by decide)
    (by decide) (by decide)

/-- C10: the persisted theoretical arrival time never moves backward: when
a nonzero timestamp was stored and the call persists (`new_tat > 0`, the
condition under which the command writes), the new value is at least the
stored one. -/
theorem claim_C10_tat_monotone (tat burst cpp pis q now : Int)
    (hc : 0 < cpp) (hp : 0 < pis) (hb : 0 ≤ burst) (hq : 0 ≤ q)
    (htat : tat ≠ 0)
    (hpersist : 0 < (rater_limit tat burst cpp pis q now).new_tat) :
    tat ≤ (rater_limit tat burst cpp pis q now).new_tat := by
  rw [rater_limit_new_tat_eq] at hpersist ⊢
  split_ifs at hpersist ⊢ with h
  · exact absurd hpersist (by decide)
  · have h1 : effective_tat tat now = tat := if_neg htat
    have h2 : 0 ≤ emission_interval pis cpp * q :=
      mul_nonneg (emission_interval_nonneg hc hp) hq
    have h3 : tat ≤ max now (effective_tat tat now) := by
      rw [h1]; exact le_max_right _ _
    omega

theorem claim_C10_witness : (5 : Int) ≤ (rater_limit 5 0 1 1 1 10).new_tat :=
  claim_C10_tat_monotone 5 0 1 1 1 10 (by decide) (by decide) (by decide)
    (by decide) (by decide) (by decide)

lemma ttl_nanos_nonneg_of_inc_le (tat burst cpp pis q now : Int)
    (hc : 0 < cpp) (hp : 0 < pis) (hq : 0 ≤ q)
    (hinc : emission_interval pis cpp * q ≤ delay_variation_tolerance burst pis cpp) :
    0 ≤ ttl_nanos tat burst cpp pis q now := by
  rw [ttl_nanos_eq]
  have he : 0 ≤ emission_interval pis cpp := emission_interval_nonneg hc hp
  have heq : 0 ≤ emission_interval pis cpp * q := mul_nonneg he hq
  split_ifs with h
  · have := now_lt_effective_of_diff_neg hinc h
    omega
  · have hmax : now ≤ max now (effective_tat tat now) := le_max_left _ _
    omega

/-- C2 counterexample: with a stored timestamp in the past (`tat = 1`,
`now = 2s`) and an over-tolerance cost (`quantity = 3` against
`burst = 0`, one event per second), the request is denied and the
reported ttl is negative. -/
theorem claim_C2_counterexample :
    (rater_limit 1 0 1 1 3 2000000000).limited = 1 ∧
      (rater_limit 1 0 1 1 3 2000000000).ttl < 0 := by decide

/-- C2 (amended): for every call with validated inputs whose increment
does not exceed the tolerance (`emissionInterval * cost ≤
emissionInterval * (burst + 1)`), the reported ttl is non-negative, and
on a denied such request `effectiveArrival - now ≥ 0`.  (A denied request
whose increment exceeds the tolerance can report a negative ttl when the
stored timestamp lies in the past, as the counterexample shows.) -/
theorem claim_C2_ttl_nonneg (tat burst cpp pis q now : Int)
    (hc : 0 < cpp) (hp : 0 < pis) (hb : 0 ≤ burst) (hq : 0 ≤ q)
    (hinc : emission_interval pis cpp * q ≤ delay_variation_tolerance burst pis cpp) :
    0 ≤ (rater_limit tat burst cpp pis q now).ttl ∧
    ((rater_limit tat burst cpp pis q now).limited = 1 →
      0 ≤ effective_tat tat now - now) := by
  have h0 := ttl_nanos_nonneg_of_inc_le tat burst cpp pis q now hc hp hq hinc
  constructor
  · rw [rater_limit_ttl_eq]
    exact Int.tdiv_nonneg h0 (by decide)
  · intro hlim
    have hd := (limited_eq_one_iff tat burst cpp pis q now).mp hlim
    have := now_lt_effective_of_diff_neg hinc hd
    omega

theorem claim_C2_witness :
    0 ≤ (rater_limit 3000000000 0 1 1 1 10).ttl ∧
    ((rater_limit 3000000000 0 1 1 1 10).limited = 1 →
      0 ≤ effective_tat 3000000000 10 - 10) :=
  claim_C2_ttl_nonneg 3000000000 0 1 1 1 10 (by decide) (by decide) (by decide)
    (by decide) (by decide)

/-- C3 counterexample: a probe (`quantity = 0`) against a stored
timestamp further than `now + tolerance` in the future is limited, so
"for every stored timestamp ... a probe is never limited" is false.
(`tat = 10^9 + 11 > now + tolerance = 10 + 10^9` with one event per
second and `burst = 0`.) -/
theorem claim_C3_counterexample :
    (rater_limit 1000000011 0 1 1 0 10).limited = 1 := by decide

/-- C3 (amended): for every stored timestamp whose effective arrival time
is at most `now + tolerance` (the bound the store's own writes maintain),
a probe (`cost = 0`) is never limited, and when the bucket has backlog
(`tat > now`) the value returned for persistence — and the value the
command then writes back — equals the stored value unchanged. -/
theorem claim_C3_probe_neutral (tat burst cpp pis now ex : Int)
    (hc : 0 < cpp) (hp : 0 < pis) (hb : 0 ≤ burst) (hnow : 0 ≤ now)
    (hbound : effective_tat tat now ≤
      now + delay_variation_tolerance burst pis cpp) :
    (rater_limit tat burst cpp pis 0 now).limited = 0 ∧
    (now < tat →
      (rater_limit tat burst cpp pis 0 now).new_tat = tat ∧
      (command_step ⟨tat, ex⟩ burst cpp pis 0 now).1.tat = tat) := by
  have hdvt : 0 ≤ delay_variation_tolerance burst pis cpp :=
    delay_variation_tolerance_nonneg hc hp hb
  have hnd : ¬ gcra_diff tat burst cpp pis 0 now < 0 := by
    unfold gcra_diff
    rw [mul_zero]
    have hmax : max now (effective_tat tat now) ≤
        now + delay_variation_tolerance burst pis cpp :=
      max_le (by omega) hbound
    omega
  refine ⟨(limited_eq_zero_iff tat burst cpp pis 0 now).mpr (not_lt.mp hnd), ?_⟩
  intro hlt
  have htne : tat ≠ 0 := by omega
  have heff : effective_tat tat now = tat := if_neg htne
  have hnew : (rater_limit tat burst cpp pis 0 now).new_tat = tat := by
    rw [rater_limit_new_tat_eq, if_neg hnd, mul_zero, add_zero, heff,
      max_eq_right hlt.le]
  refine ⟨hnew, ?_⟩
  rw [command_step_tat, hnew]
  exact if_pos (by omega)

theorem claim_C3_witness :
    (rater_limit 100 0 1 1 0 10).limited = 0 ∧
    ((10 : Int) < 100 →
      (rater_limit 100 0 1 1 0 10).new_tat = 100 ∧
      (command_step ⟨100, 0⟩ 0 1 1 0 10).1.tat = 100) :=
  claim_C3_probe_neutral 100 0 1 1 10 0 (by decide) (by decide) (by decide)
    (by decide) (by decide)

/-- C4 counterexample: on the denied over-tolerance request of the C2
scenario (stored timestamp in the past, cost 2 against tolerance 1), the
reported `remaining` (11) strictly exceeds `limit` (1). -/
theorem claim_C4_counterexample :
    (rater_limit 1000 0 10000000 1 2 2000).limit <
      (rater_limit 1000 0 10000000 1 2 2000).remaining := by decide

/-- C4 (amended): for every call with validated inputs whose increment
does not exceed the tolerance, the reported `remaining` lies in
`[0, limit]` with `limit = burst + 1`.  (On a denied request whose
increment exceeds the tolerance, `remaining` can exceed `limit`, as the
counterexample shows.) -/
theorem claim_C4_remaining_range (tat burst cpp pis q now : Int)
    (hc : 0 < cpp) (hp : 0 < pis) (hb : 0 ≤ burst) (hq : 0 ≤ q)
    (hinc : emission_interval pis cpp * q ≤ delay_variation_tolerance burst pis cpp) :
    0 ≤ (rater_limit tat burst cpp pis q now).remaining ∧
    (rater_limit tat burst cpp pis q now).remaining ≤
      (rater_limit tat burst cpp pis q now).limit := by
  rw [rater_limit_remaining_eq, rater_limit_limit_eq]
  have he : 0 ≤ emission_interval pis cpp := emission_interval_nonneg hc hp
  have httl := ttl_nanos_nonneg_of_inc_le tat burst cpp pis q now hc hp hq hinc
  set e := emission_interval pis cpp with hE
  set x := delay_variation_tolerance burst pis cpp - ttl_nanos tat burst cpp pis q now
    with hX
  have hx : x ≤ delay_variation_tolerance burst pis cpp := by omega
  split_ifs with hg
  · rcases le_or_lt 0 x with hx0 | hx0
    · refine ⟨Int.tdiv_nonneg hx0 he, ?_⟩
      rcases lt_or_eq_of_le he with he' | he'
      · rw [Int.tdiv_eq_ediv hx0 he]
        have hstep : x / e ≤ delay_variation_tolerance burst pis cpp / e :=
          Int.ediv_le_ediv he' hx
        have hdvt : delay_variation_tolerance burst pis cpp = e * (burst + 1) := by
          unfold delay_variation_tolerance
          rw [← hE]
        rw [hdvt, Int.mul_ediv_cancel_left _ (ne_of_gt he')] at hstep
        exact hstep
      · rw [← he', Int.tdiv_zero]
        omega
    · have hzero : Int.tdiv x e = 0 := by
        have h1 : Int.tdiv (-x) e = 0 :=
          Int.tdiv_eq_zero_of_lt (by omega) (by omega)
        have h2 : Int.tdiv (-x) e = -Int.tdiv x e := Int.neg_tdiv x e
        omega
      rw [hzero]
      exact ⟨le_refl 0, by omega⟩
  · exact ⟨le_refl 0, by omega⟩

theorem claim_C4_witness :
    0 ≤ (rater_limit 0 2 10 1 1 0).remaining ∧
    (rater_limit 0 2 10 1 1 0).remaining ≤ (rater_limit 0 2 10 1 1 0).limit :=
  claim_C4_remaining_range 0 2 10 1 1 0 (by decide) (by decide) (by decide)
    (by decide) (by decide)

lemma ttl_nanos_nonneg_of_admitted_or_probe (tat burst cpp pis q now : Int)
    (hc : 0 < cpp) (hp : 0 < pis) (hb : 0 ≤ burst) (hq : 0 ≤ q)
    (h : (rater_limit tat burst cpp pis q now).limited = 0 ∨ q = 0) :
    0 ≤ ttl_nanos tat burst cpp pis q now := by
  rcases h with h | h
  · have hd := (limited_eq_zero_iff tat burst cpp pis q now).mp h
    rw [ttl_nanos_eq, if_neg (not_lt.mpr hd)]
    have hmax : now ≤ max now (effective_tat tat now) := le_max_left _ _
    have heq : 0 ≤ emission_interval pis cpp * q :=
      mul_nonneg (emission_interval_nonneg hc hp) hq
    omega
  · subst h
    exact ttl_nanos_nonneg_of_inc_le tat burst cpp pis 0 now hc hp (le_refl 0)
      (by rw [mul_zero]; exact delay_variation_tolerance_nonneg hc hp hb)

lemma tdiv_usec_then_msec (x : Int) (hx : 0 ≤ x) :
    Int.tdiv (Int.tdiv x USEC_PER_SEC) MSEC_PER_SEC = Int.tdiv x NSEC_PER_SEC := by
  obtain ⟨n, rfl⟩ := Int.eq_ofNat_of_zero_le hx
  have h1 : USEC_PER_SEC = ((1000000 : Nat) : Int) := rfl
  have h2 : MSEC_PER_SEC = ((1000 : Nat) : Int) := rfl
  have h3 : NSEC_PER_SEC = ((1000000000 : Nat) : Int) := rfl
  rw [h1, h2, h3, ← Int.ofNat_tdiv, ← Int.ofNat_tdiv, ← Int.ofNat_tdiv,
    Nat.div_div_eq_div_mul]

/-- C9: on every admitted or probing call, the reply ttl in whole seconds
is the nanosecond ttl truncated toward zero by `10^9`, and the expiry the
command passes to the store (milliseconds, `RedisModule_SetExpire`'s
native unit) is the same nanosecond ttl truncated toward zero by `10^6`:
one rounding law, the reported value being the stored expiry divided by
`MSEC_PER_SEC` with the same truncation. -/
theorem claim_C9_ttl_single_rounding (tat burst cpp pis q now : Int)
    (hc : 0 < cpp) (hp : 0 < pis) (hb : 0 ≤ burst) (hq : 0 ≤ q)
    (h : (rater_limit tat burst cpp pis q now).limited = 0 ∨ q = 0) :
    reply_ttl_seconds (rater_limit tat burst cpp pis q now) =
      Int.tdiv (ttl_nanos tat burst cpp pis q now) NSEC_PER_SEC ∧
    (rater_limit tat burst cpp pis q now).ttl =
      Int.tdiv (ttl_nanos tat burst cpp pis q now) USEC_PER_SEC ∧
    reply_ttl_seconds (rater_limit tat burst cpp pis q now) =
      Int.tdiv (rater_limit tat burst cpp pis q now).ttl MSEC_PER_SEC ∧
    (∀ st : StoredState, st.tat = tat →
      0 < (rater_limit tat burst cpp pis q now).new_tat →
      (command_step st burst cpp pis q now).1.expiry_ms =
        Int.tdiv (ttl_nanos tat burst cpp pis q now) USEC_PER_SEC) := by
  have h0 := ttl_nanos_nonneg_of_admitted_or_probe tat burst cpp pis q now hc hp hb hq h
  refine ⟨?_, rfl, rfl, ?_⟩
  · show Int.tdiv (Int.tdiv (ttl_nanos tat burst cpp pis q now) USEC_PER_SEC)
        MSEC_PER_SEC = _
    exact tdiv_usec_then_msec _ h0
  · intro st hst hpos
    simp only [command_step, hst]
    rw [if_pos hpos]
    rfl

theorem claim_C9_witness :
    reply_ttl_seconds (rater_limit 0 2 10 1 1 0) =
      Int.tdiv (ttl_nanos 0 2 10 1 1 0) NSEC_PER_SEC ∧
    (rater_limit 0 2 10 1 1 0).ttl =
      Int.tdiv (ttl_nanos 0 2 10 1 1 0) USEC_PER_SEC ∧
    reply_ttl_seconds (rater_limit 0 2 10 1 1 0) =
      Int.tdiv (rater_limit 0 2 10 1 1 0).ttl MSEC_PER_SEC ∧
    (∀ st : StoredState, st.tat = 0 →
      0 < (rater_limit 0 2 10 1 1 0).new_tat →
      (command_step st 2 10 1 1 0).1.expiry_ms =
        Int.tdiv (ttl_nanos 0 2 10 1 1 0) USEC_PER_SEC) :=
  claim_C9_ttl_single_rounding 0 2 10 1 1 0 (by decide) (by decide) (by decide)
    (by decide) (Or.inl (by decide))

lemma call_on_fresh (burst cpp pis now : Int)
    (hb : 0 ≤ burst) (he : 0 < emission_interval pis cpp) :
    (rater_limit 0 burst cpp pis 1 now).limited = 0 ∧
    (rater_limit 0 burst cpp pis 1 now).new_tat =
      now + emission_interval pis cpp := by
  have heff : effective_tat 0 now = now := if_pos rfl
  have hnd : ¬ gcra_diff 0 burst cpp pis 1 now < 0 := by
    unfold gcra_diff delay_variation_tolerance
    rw [heff, max_self, mul_one]
    have h1 : emission_interval pis cpp * (burst + 1) =
        emission_interval pis cpp * burst + emission_interval pis cpp := by ring
    have h2 : 0 ≤ emission_interval pis cpp * burst := mul_nonneg he.le hb
    omega
  constructor
  · rw [rater_limit_limited_eq, if_neg hnd]
  · rw [rater_limit_new_tat_eq, if_neg hnd, heff, max_self, mul_one]

lemma call_on_loaded (burst cpp pis now j : Int)
    (hb : 0 ≤ burst) (he : 0 < emission_interval pis cpp)
    (hnow : 0 ≤ now) (hj : 1 ≤ j) :
    (rater_limit (now + j * emission_interval pis cpp) burst cpp pis 1 now).limited
        = (if j ≤ burst then 0 else 1) ∧
    (rater_limit (now + j * emission_interval pis cpp) burst cpp pis 1 now).new_tat
        = (if j ≤ burst then now + (j + 1) * emission_interval pis cpp else 0) := by
  set e := emission_interval pis cpp with hE
  have hje : e ≤ j * e := le_mul_of_one_le_left he.le hj
  have htpos : 0 < now + j * e := by omega
  have heff : effective_tat (now + j * e) now = now + j * e := if_neg htpos.ne'
  have hmax : max now (now + j * e) = now + j * e := max_eq_right (by omega)
  have hdiff : gcra_diff (now + j * e) burst cpp pis 1 now = (burst - j) * e := by
    unfold gcra_diff delay_variation_tolerance
    rw [← hE, heff, hmax]
    ring
  rcases le_or_lt j burst with hle | hgt
  · have hnd : ¬ gcra_diff (now + j * e) burst cpp pis 1 now < 0 := by
      rw [hdiff]
      exact not_lt.mpr (mul_nonneg (by omega) he.le)
    rw [rater_limit_limited_eq, if_neg hnd, rater_limit_new_tat_eq, if_neg hnd,
      if_pos hle, if_pos hle, ← hE, heff, hmax]
    exact ⟨rfl, by ring⟩
  · have hd : gcra_diff (now + j * e) burst cpp pis 1 now < 0 := by
      rw [hdiff]
      exact mul_neg_of_neg_of_pos (by omega) he
    rw [rater_limit_limited_eq, if_pos hd, rater_limit_new_tat_eq, if_pos hd,
      if_neg (not_le.mpr hgt), if_neg (not_le.mpr hgt)]
    exact ⟨rfl, rfl⟩

lemma iter_calls_tat_eq (burst cpp pis now : Int)
    (hb : 0 ≤ burst) (he : 0 < emission_interval pis cpp) (hnow : 0 ≤ now) :
    ∀ k : Nat, (k : Int) ≤ burst + 1 →
      (iter_calls burst cpp pis now k).tat =
        if k = 0 then 0 else now + (k : Int) * emission_interval pis cpp := by
  intro k
  induction k with
  | zero => intro _; simp [iter_calls, fresh]
  | succ n ih =>
    intro hk
    have hn : (n : Int) ≤ burst + 1 := by
      push_cast at hk
      omega
    have htat := ih hn
    rw [iter_calls, command_step_tat, htat]
    rcases Nat.eq_zero_or_pos n with h0 | hpos
    · subst h0
      rw [if_pos rfl]
      have hcf := call_on_fresh burst cpp pis now hb he
      rw [hcf.2, if_pos (by omega), if_neg (Nat.succ_ne_zero 0)]
      push_cast
      ring
    · rw [if_neg hpos.ne']
      have h1 : (1 : Int) ≤ (n : Int) := by exact_mod_cast hpos
      have hnb : (n : Int) ≤ burst := by
        push_cast at hk
        omega
      have hcl := call_on_loaded burst cpp pis now (n : Int) hb he hnow h1
      rw [hcl.2, if_pos hnb]
      have hpos2 : (0 : Int) < now + ((n : Int) + 1) * emission_interval pis cpp := by
        have : emission_interval pis cpp ≤
            ((n : Int) + 1) * emission_interval pis cpp :=
          le_mul_of_one_le_left he.le (by omega)
        omega
      rw [if_pos hpos2, if_neg (Nat.succ_ne_zero n)]
      push_cast
      ring

/-- C8 counterexample: for the validated configuration `burst = 0`,
`countPerPeriod = 2 * 10^9`, `periodSeconds = 1` (whose emission interval
truncates to zero), the call after the claimed `burst + 1` admitted calls
is admitted as well, not denied. -/
theorem claim_C8_counterexample :
    0 < (2000000000 : Int) ∧ 0 < (1 : Int) ∧ 0 ≤ (0 : Int) ∧
    (command_step (iter_calls 0 2000000000 1 5 1) 0 2000000000 1 1 5).2.limited
      = 0 := by decide

/-- C8 (amended): for every valid configuration whose derived emission
interval is positive, and every nonnegative clock value held constant,
starting from a fresh bucket the first `burst + 1` calls with `cost = 1`
(each persisting through the command's write-back) are all admitted and
the next call is denied. -/
theorem claim_C8_burst_exhaustion (burst cpp pis now : Int)
    (hc : 0 < cpp) (hp : 0 < pis) (hb : 0 ≤ burst)
    (he : 0 < emission_interval pis cpp) (hnow : 0 ≤ now) :
    (∀ k : Nat, (k : Int) ≤ burst →
      (command_step (iter_calls burst cpp pis now k)
        burst cpp pis 1 now).2.limited = 0) ∧
    (command_step (iter_calls burst cpp pis now (burst.toNat + 1))
      burst cpp pis 1 now).2.limited = 1 := by
  constructor
  · intro k hk
    rw [command_step_snd,
      iter_calls_tat_eq burst cpp pis now hb he hnow k (by omega)]
    rcases Nat.eq_zero_or_pos k with h0 | hpos
    · subst h0
      rw [if_pos rfl]
      exact (call_on_fresh burst cpp pis now hb he).1
    · rw [if_neg hpos.ne']
      have h1 : (1 : Int) ≤ (k : Int) := by exact_mod_cast hpos
      rw [(call_on_loaded burst cpp pis now (k : Int) hb he hnow h1).1,
        if_pos hk]
  · have hcast : ((burst.toNat + 1 : Nat) : Int) = burst + 1 := by
      push_cast
      rw [Int.toNat_of_nonneg hb]
    rw [command_step_snd,
      iter_calls_tat_eq burst cpp pis now hb he hnow (burst.toNat + 1)
        (le_of_eq hcast),
      if_neg (Nat.succ_ne_zero _), hcast,
      (call_on_loaded burst cpp pis now (burst + 1) hb he hnow (by omega)).1,
      if_neg (by omega)]

theorem claim_C8_witness :
    (∀ k : Nat, (k : Int) ≤ 2 →
      (command_step (iter_calls 2 10 1 7 k) 2 10 1 1 7).2.limited = 0) ∧
    (command_step (iter_calls 2 10 1 7 ((2 : Int).toNat + 1))
      2 10 1 1 7).2.limited = 1 :=
  claim_C8_burst_exhaustion 2 10 1 7 (by decide) (by decide) (by decide)
    (by decide) (by decide)

end RedisRateLimiter
